import Mathlib

/-
Verification of the ACN repository (acn_models.py, train_mnist_vqdeconv_acn.py,
train_mnist_pcnn_tacn.py) against its natural-language specification.

Shallow embedding conventions:
- a PyTorch tensor of shape (B, D, H, W) is a function
  Fin B -> Fin D -> Fin H -> Fin W -> Q; machine floats are modelled by
  exact rationals;
- codebooks of num_clusters entries use Fin (K+1) so that the argmin over a
  nonempty codebook is total;
- the autograd backward pass is modelled by explicit vector-Jacobian-product
  (vjp) functions attached to each operation;
- numpy / sklearn randomness is modelled by passing the drawn values
  explicitly.
-/

namespace ACN

/-- A (B, D, H, W)-shaped tensor of rationals (batch, channel, height, width),
the layout produced by the convolutional encoders. -/
def Tensor4 (B D H W : ℕ) : Type := Fin B → Fin D → Fin H → Fin W → ℚ

/-- A (B, H, W, D)-shaped tensor, the layout used inside vq and vq_st after
the permute(0, 2, 3, 1) call. -/
def TensorNHWC (B H W D : ℕ) : Type := Fin B → Fin H → Fin W → Fin D → ℚ

instance (B D H W : ℕ) : DecidableEq (Tensor4 B D H W) := by
  unfold Tensor4; infer_instance

instance (B H W D : ℕ) : DecidableEq (TensorNHWC B H W D) := by
  unfold TensorNHWC; infer_instance

/-- The permute(0, 2, 3, 1) call in VQEmbedding.forward and
VQEmbedding.straight_through: moves the channel dimension last.
The contiguous() call only changes memory layout and is the identity on
values. -/
def permute0231 {B D H W : ℕ} (x : Tensor4 B D H W) : TensorNHWC B H W D :=
  fun b h w d => x b d h w

/-- The permute(0, 3, 1, 2) call in VQEmbedding.straight_through: moves the
channel dimension back to position 1. -/
def permute0312 {B H W D : ℕ} (x : TensorNHWC B H W D) : Tensor4 B D H W :=
  fun b d h w => x b h w d

/-- Squared Euclidean distance between two D-dimensional vectors, the
quantity minimised by the nearest-centroid assignment of vq. -/
def sqDist {D : ℕ} (v w : Fin D → ℚ) : ℚ := ∑ i, (v i - w i) ^ 2

/-- Modelled from the spec: the repository imports vq from functions.py
(absent from the sources), described as computing the squared Euclidean
distance from one latent vector to every codebook entry and selecting the
index of the minimum, ties broken by the minimum index of the underlying
minimum operation. -/
def vqIndex {D K : ℕ} (emb : Fin (K + 1) → Fin D → ℚ) (v : Fin D → ℚ) :
    Fin (K + 1) :=
  (((List.finRange (K + 1)).argmin (fun k => sqDist v (emb k))).getD 0)

/-- Modelled from the spec: vq from functions.py applied location-wise to a
(B, H, W, D) tensor, producing one codebook index per spatial location. -/
def vq {B H W D K : ℕ} (z : TensorNHWC B H W D)
    (emb : Fin (K + 1) → Fin D → ℚ) : Fin B → Fin H → Fin W → Fin (K + 1) :=
  fun b h w => vqIndex emb (z b h w)

/-- Value-level semantics of Tensor.detach: the forward value is unchanged,
only gradient tracking is dropped (gradient modelling is explicit below). -/
def detach {D K : ℕ} (w : Fin (K + 1) → Fin D → ℚ) : Fin (K + 1) → Fin D → ℚ :=
  w

/-- Modelled from the spec: vq_st from functions.py (absent from the
sources), the straight-through autograd function.  Forward: performs the
same nearest-centroid assignment as vq and returns the looked-up codebook
rows together with the flat indices. -/
def vq_st {B H W D K : ℕ} (z : TensorNHWC B H W D)
    (emb : Fin (K + 1) → Fin D → ℚ) :
    TensorNHWC B H W D × (Fin B → Fin H → Fin W → Fin (K + 1)) :=
  (fun b h w => emb (vq z emb b h w), vq z emb)

/-- Modelled from the spec: the backward rule of vq_st with respect to its
continuous input copies the incoming gradient through unchanged
(straight-through estimator); the argmin itself contributes no gradient. -/
def vq_st_vjpInput {B H W D K : ℕ} (_z : TensorNHWC B H W D)
    (_emb : Fin (K + 1) → Fin D → ℚ) (g : TensorNHWC B H W D) :
    TensorNHWC B H W D :=
  g

/-- VQEmbedding.forward (acn_models.py lines 445-448): permute the input to
(B, H, W, D) and run vq against the embedding weight, giving the per-location
codebook indices (lookup mode). -/
def VQEmbedding.forward {B D H W K : ℕ} (weight : Fin (K + 1) → Fin D → ℚ)
    (z_e_x : Tensor4 B D H W) : Fin B → Fin H → Fin W → Fin (K + 1) :=
  vq (permute0231 z_e_x) weight

/-- The embedding lookup used in the decode path
(self.codebook.embedding(latents).permute(0, 3, 1, 2)): turns per-location
indices into the (B, D, H, W) tensor of codebook rows. -/
def embeddingLookup {B D H W K : ℕ} (weight : Fin (K + 1) → Fin D → ℚ)
    (latents : Fin B → Fin H → Fin W → Fin (K + 1)) : Tensor4 B D H W :=
  permute0312 (fun b h w => weight (latents b h w))

/-- VQEmbedding.straight_through (acn_models.py lines 450-460): runs vq_st
against the detached embedding weight, permutes the quantized values back to
(B, D, H, W), and separately gathers the non-detached weight rows at the
returned indices (index_select followed by view_as and permute) to form the
tensor carrying the codebook gradient. -/
def VQEmbedding.straight_through {B D H W K : ℕ}
    (weight : Fin (K + 1) → Fin D → ℚ) (z_e_x : Tensor4 B D H W) :
    Tensor4 B D H W × Tensor4 B D H W :=
  let z_e_x_ := permute0231 z_e_x
  let p := vq_st z_e_x_ (detach weight)
  let z_q_x := permute0312 p.1
  let z_q_x_bar_ : TensorNHWC B H W D := fun b h w => weight (p.2 b h w)
  let z_q_x_bar := permute0312 z_q_x_bar_
  (z_q_x, z_q_x_bar)

/-- Backward pass of the first output of VQEmbedding.straight_through with
respect to z_e_x: the composite of the vjp of permute(0, 3, 1, 2) (which is
permute(0, 2, 3, 1) of the gradient), the straight-through vjp of vq_st, and
the vjp of permute(0, 2, 3, 1) (which is permute(0, 3, 1, 2)). -/
def straight_through_vjp_z_e_x {B D H W K : ℕ}
    (weight : Fin (K + 1) → Fin D → ℚ) (z_e_x : Tensor4 B D H W)
    (g : Tensor4 B D H W) : Tensor4 B D H W :=
  permute0312 (vq_st_vjpInput (permute0231 z_e_x) (detach weight)
    (permute0231 g))

/-- Backward pass of the second output of VQEmbedding.straight_through with
respect to the embedding weight: the vjp of index_select along dim 0, which
scatter-adds each location gradient into the codebook row selected there. -/
def index_select_vjp_weight {B D H W K : ℕ}
    (indices : Fin B → Fin H → Fin W → Fin (K + 1)) (g : Tensor4 B D H W) :
    Fin (K + 1) → Fin D → ℚ :=
  fun k d => ∑ b, ∑ h, ∑ w, if indices b h w = k then permute0231 g b h w d
    else 0

/-- Inner product on codebook-shaped gradients. -/
def innerKD {D K : ℕ} (x y : Fin (K + 1) → Fin D → ℚ) : ℚ :=
  ∑ k, ∑ d, x k d * y k d

/-- Inner product on (B, D, H, W)-shaped gradients. -/
def innerT4 {B D H W : ℕ} (x y : Tensor4 B D H W) : ℚ :=
  ∑ b, ∑ d, ∑ h, ∑ w, x b d h w * y b d h w

/-- The codebook of the concrete scenario of the spec: 2 entries at
[[-1, -1], [1, 1]]. -/
def embScenario : Fin 2 → Fin 2 → ℚ := ![![-1, -1], ![1, 1]]

/-- The input of the concrete scenario of the spec: the single spatial
location holds the vector [0.9, 0.9]. -/
def zScenario : Tensor4 1 2 1 1 := fun _ _ _ _ => 9 / 10

/-- Repeatedly pick the remaining index with minimum key (ties to the
earliest index), the selection step behind the k-nearest-neighbor query. -/
def selectNearest {N : ℕ} (d : Fin N → ℚ) : ℕ → List (Fin N) → List (Fin N)
  | 0, _ => []
  | k + 1, rem =>
    match rem.argmin d with
    | none => []
    | some m => m :: selectNearest d k (rem.erase m)

/-- Model of the external sklearn KNeighborsClassifier.kneighbors call made
by PriorNetwork.batch_pick_close_neighbor, by its documented contract: for
one query, return the indices of the k nearest fitted rows (the whole code
table passed to fit_knn, nothing excluded) ordered by ascending Euclidean
distance.  Ordering by squared distance coincides with ordering by Euclidean
distance. -/
def kneighbors {N D : ℕ} (codes : Fin N → Fin D → ℚ) (k : ℕ)
    (query : Fin D → ℚ) : List (Fin N) :=
  selectNearest (fun i => sqDist query (codes i)) k (List.finRange N)

/-- The code table of the spec scenario for the KNN prior:
[[0, 0], [10, 10], [1, 1], [-5, -5]]. -/
def codesScenario : Fin 4 → Fin 2 → ℚ := ![![0, 0], ![10, 10], ![1, 1], ![-5, -5]]

/-- The query of the spec scenario for the KNN prior: [0.5, 0.5]. -/
def queryScenario : Fin 2 → ℚ := fun _ => 1 / 2

/-- A small synthetic code table used to witness the frame property of the
batch update: 4 rows, all zero. -/
def codesC3 : Fin 4 → Fin 1 → ℚ := fun _ _ => 0

/-- A batch covering the strict subset {0, 2} of the synthetic table. -/
def bidxC3 : Fin 2 → Fin 4 := ![0, 2]

/-- Fresh posterior means for the witness batch. -/
def valsC3 : Fin 2 → Fin 1 → ℚ := fun j _ => (j : ℚ) + 1

/-- The phase argument threaded through run_acn / run: the training scripts
call them with the strings train and valid only. -/
inductive Phase : Type where
  | train : Phase
  | valid : Phase
deriving DecidableEq

/-- A single numpy row assignment codes[i] = v. -/
def setRow {N D : ℕ} (codes : Fin N → Fin D → ℚ) (i : Fin N)
    (v : Fin D → ℚ) : Fin N → Fin D → ℚ :=
  fun i2 => if i2 = i then v else codes i2

/-- The numpy fancy-index assignment codes[batch_index] = vals of run_acn:
row batch_index[j] receives vals[j], later positions winning on duplicate
indices. -/
def npSetRows {N D m : ℕ} (codes : Fin N → Fin D → ℚ)
    (bidx : Fin m → Fin N) (vals : Fin m → Fin D → ℚ) : Fin N → Fin D → ℚ :=
  (List.finRange m).foldl (fun acc j => setRow acc (bidx j) (vals j)) codes

/-- Effect of one run_acn batch on the prior's code table
(train_mnist_vqdeconv_acn.py lines 154-157): in the train phase the rows at
batch_index are overwritten with the batch posterior means and fit_knn is
called on the same table (fit_knn stores the array and refits the index,
changing no row); in the valid phase the guard skips both statements. -/
def run_acn_code_table {N D m : ℕ} (phase : Phase)
    (codes : Fin N → Fin D → ℚ) (bidx : Fin m → Fin N)
    (vals : Fin m → Fin D → ℚ) : Fin N → Fin D → ℚ :=
  match phase with
  | .train => npSetRows codes bidx vals
  | .valid => codes

/-- The code table across a whole phase: run_acn folds the per-batch update
over the batches served by the data loader. -/
def run_acn_phase_code_table {N D m : ℕ} (phase : Phase)
    (batches : List ((Fin m → Fin N) × (Fin m → Fin D → ℚ)))
    (codes : Fin N → Fin D → ℚ) : Fin N → Fin D → ℚ :=
  batches.foldl (fun acc bi => run_acn_code_table phase acc bi.1 bi.2) codes

/-- PriorNetwork.batch_pick_close_neighbor (acn_models.py lines 762-773)
for a prior constructed with n_neighbors = k + 1: query kneighbors for the
k + 1 nearest code-table rows per example; in training mode index the
neighbor list with the per-example numpy randint draw (passed explicitly
here, drawn uniformly over 0..k by numpy), in evaluation mode with the
np.zeros choice, i.e. index 0; then return the chosen rows of the table. -/
def batch_pick_close_neighbor {N D bs : ℕ} (training : Bool) (k : ℕ)
    (codes : Fin (N + 1) → Fin D → ℚ) (queries : Fin bs → Fin D → ℚ)
    (draws : Fin bs → Fin (k + 1)) : Fin bs → Fin D → ℚ :=
  fun b =>
    let nbrs := kneighbors codes (k + 1) (queries b)
    let chosen : ℕ := if training then (draws b : ℕ) else 0
    codes (nbrs.getD chosen 0)

/-- ConvEncoder.reparameterize (acn_models.py lines 58-65), with torch.exp
passed explicitly as expf and the standard-normal sample eps passed
explicitly: in training mode eps.mul(std).add_(mu) with
std = expf(0.5 * logvar); otherwise mu. -/
def reparameterize {n : ℕ} (expf : ℚ → ℚ) (training : Bool)
    (mu logvar eps : Fin n → ℚ) : Fin n → ℚ :=
  if training then fun i => eps i * expf (1 / 2 * logvar i) + mu i else mu

/-- ConvEncodeDecodeLargeVQVAE.acn_encode: encoder plus the two linear
heads, abstracted as enc, followed by reparameterize; returns
(z, mu, logvar). -/
def acn_encode {Img : Type} {n : ℕ} (enc : Img → (Fin n → ℚ) × (Fin n → ℚ))
    (expf : ℚ → ℚ) (training : Bool) (eps : Fin n → ℚ) (x : Img) :
    (Fin n → ℚ) × (Fin n → ℚ) × (Fin n → ℚ) :=
  let mu := (enc x).1
  let logvar := (enc x).2
  (reparameterize expf training mu logvar eps, mu, logvar)

/-- ConvEncodeDecodeLargeVQVAE.vq_encode: fc3, ReLU, reshape and
conv_layers abstracted as postz, then the codebook lookup. -/
def vq_encode {n B D H W K : ℕ} (postz : (Fin n → ℚ) → Tensor4 B D H W)
    (weight : Fin (K + 1) → Fin D → ℚ) (z : Fin n → ℚ) :
    Tensor4 B D H W × (Fin B → Fin H → Fin W → Fin (K + 1)) :=
  let z_e_x := postz z
  (z_e_x, VQEmbedding.forward weight z_e_x)

/-- ConvEncodeDecodeLargeVQVAE.forward: acn_encode, vq_encode, then the
straight-through codebook pass; returns
(z, mu, logvar, z_e_x, z_q_x_st, z_q_x, latents), the pieces run_acn
unpacks (the decoder output x_d plays no role in the prior dataflow). -/
def vq_conv_model_forward {Img : Type} {n B D H W K : ℕ}
    (enc : Img → (Fin n → ℚ) × (Fin n → ℚ))
    (postz : (Fin n → ℚ) → Tensor4 B D H W)
    (weight : Fin (K + 1) → Fin D → ℚ) (expf : ℚ → ℚ) (training : Bool)
    (eps : Fin n → ℚ) (x : Img) :
    (Fin n → ℚ) × (Fin n → ℚ) × (Fin n → ℚ) × Tensor4 B D H W ×
      Tensor4 B D H W × Tensor4 B D H W ×
      (Fin B → Fin H → Fin W → Fin (K + 1)) :=
  let zml := acn_encode enc expf training eps x
  let el := vq_encode postz weight zml.1
  let st := VQEmbedding.straight_through weight el.1
  (zml.1, zml.2.1, zml.2.2, el.1, st.1, st.2, el.2)

/-- The value run_acn (train_mnist_vqdeconv_acn.py line 158) feeds to the
KNN prior as the query: the script calls prior_model(u_q), the posterior
mean component of the model output. -/
def run_acn_prior_query {Img : Type} {n B D H W K : ℕ}
    (enc : Img → (Fin n → ℚ) × (Fin n → ℚ))
    (postz : (Fin n → ℚ) → Tensor4 B D H W)
    (weight : Fin (K + 1) → Fin D → ℚ) (expf : ℚ → ℚ) (training : Bool)
    (eps : Fin n → ℚ) (x : Img) : Fin n → ℚ :=
  (vq_conv_model_forward enc postz weight expf training eps x).2.1

/-- The value run_acn (train_mnist_vqdeconv_acn.py line 156) writes into
the prior's code table for each batch example: u_q.detach(), again the
posterior mean component. -/
def run_acn_code_update_value {Img : Type} {n B D H W K : ℕ}
    (enc : Img → (Fin n → ℚ) × (Fin n → ℚ))
    (postz : (Fin n → ℚ) → Tensor4 B D H W)
    (weight : Fin (K + 1) → Fin D → ℚ) (expf : ℚ → ℚ) (training : Bool)
    (eps : Fin n → ℚ) (x : Img) : Fin n → ℚ :=
  (vq_conv_model_forward enc postz weight expf training eps x).2.1

/-- The whitelist of create_conv_acn_pcnn_models / create_models: metadata
keys whose command-line values survive a checkpoint load. -/
def preserve_args : List String :=
  ["device", "batch_size", "save_every_epochs", "base_filepath",
   "model_loadpath", "perplexity", "use_pred"]

/-- One iteration of the checkpoint-metadata merge loop: overwrite
info[key] with dinfo[key] unless the key is whitelisted and currently
present (the live dict view pkeys is the current accumulator). -/
def infoMergeStep {V : Type} (dinfo : String → Option V)
    (acc : String → Option V) (key : String) : String → Option V :=
  if key ∈ preserve_args ∧ (acc key).isSome then acc
  else fun k2 => if k2 = key then dinfo key else acc k2

/-- The checkpoint-metadata merge of create_conv_acn_pcnn_models and
create_models (lines 49-63 of both training scripts): iterate over the
checkpoint info keys dkeys, selectively overwriting the current info. -/
def infoMerge {V : Type} (dkeys : List String)
    (dinfo info : String → Option V) : String → Option V :=
  dkeys.foldl (infoMergeStep dinfo) info

/-- Python max over a list of booleans, as used in the main blocks of both
training scripts (False is less than True, so max is disjunction). -/
def pymax (l : List Bool) : Bool := l.foldl max false

/-- The guard on train_acn in train_mnist_vqdeconv_acn.py:
if not max([args.tsne, args.walk]). -/
def vq_script_trains (tsne walk : Bool) : Bool := !(pymax [tsne, walk])

/-- The guard on train_acn in train_mnist_pcnn_tacn.py:
if not max([args.sample, args.tsne, args.pca]). -/
def pcnn_script_trains (sample tsne pca : Bool) : Bool :=
  !(pymax [sample, tsne, pca])

/-- Concrete encoder heads for the C6 dataflow instance: posterior mean 0
and log-variance 0 on a one-point input space. -/
def encC6 : Unit → (Fin 1 → ℚ) × (Fin 1 → ℚ) :=
  fun _ => (fun _ => 0, fun _ => 0)

/-- Concrete fc3 / conv_layers stage for the C6 instance: broadcast the
single latent coordinate onto the 1x1x1x1 spatial grid. -/
def postzC6 : (Fin 1 → ℚ) → Tensor4 1 1 1 1 := fun z _ _ _ _ => z 0

/-- Concrete one-row codebook for the C6 instance, holding the entry [1]. -/
def weightC6 : Fin 1 → Fin 1 → ℚ := fun _ _ => 1

/-- Concrete stand-in for torch.exp in the C6 instance (only its value at
0 matters; exp 0 = 1). -/
def expfC6 : ℚ → ℚ := fun _ => 1

/-- Concrete standard-normal draw for the C6 instance. -/
def epsC6 : Fin 1 → ℚ := fun _ => 1

/-- Checkpoint metadata keys of the C7 witness instance. -/
def dkeysC7 : List String := ["device", "learning_rate"]

/-- Checkpoint metadata of the C7 witness instance. -/
def dinfoC7 : String → Option ℕ := fun k =>
  if k = "device" then some 7 else if k = "learning_rate" then some 3
  else none

/-- Current command-line-derived metadata of the C7 witness instance: only
the whitelisted key device is present. -/
def infoC7 : String → Option ℕ := fun k =>
  if k = "device" then some 1 else none

/-- Optimizer-visible state of one run_acn / run pass: the learnable
parameters, the gradient buffers, and instrumentation counting every
opt.step() and clip_parameters call. -/
structure OptState (P G : Type) : Type where
  params : P
  grads : G
  stepCalls : ℕ
  clipCalls : ℕ

/-- One batch of run_acn / run as it touches parameters and gradients:
backward always accumulates into the gradient buffers; only under the
phase == train guard are gradients clipped, opt.step() taken and the
parameters replaced. -/
def run_batch_opt {P G B : Type} (phase : Phase)
    (backward : B → P → G → G) (clipf : G → G) (stepf : P → G → P)
    (st : OptState P G) (batch : B) : OptState P G :=
  let g2 := backward batch st.params st.grads
  match phase with
  | .train =>
      { params := stepf st.params (clipf g2), grads := clipf g2,
        stepCalls := st.stepCalls + 1, clipCalls := st.clipCalls + 1 }
  | .valid => { st with grads := g2 }

/-- A whole-phase pass of run_acn / run over its batches, as it touches
parameters and gradients. -/
def run_phase_opt {P G B : Type} (phase : Phase)
    (backward : B → P → G → G) (clipf : G → G) (stepf : P → G → P)
    (batches : List B) (st : OptState P G) : OptState P G :=
  batches.foldl (run_batch_opt phase backward clipf stepf) st

end ACN

namespace ACN

theorem finRange_argmin_isSome {K : ℕ} (f : Fin (K + 1) → ℚ) :
    ((List.finRange (K + 1)).argmin f).isSome := by
  cases h : (List.finRange (K + 1)).argmin f with
  | none =>
      have hl := List.argmin_eq_none.mp h
      have := List.length_finRange (K + 1)
      rw [hl] at this
      simp at this
  | some m => rfl

/-- The index chosen by vqIndex attains the minimum squared distance over the
whole codebook. -/
theorem vqIndex_min {D K : ℕ} (emb : Fin (K + 1) → Fin D → ℚ)
    (v : Fin D → ℚ) (k : Fin (K + 1)) :
    sqDist v (emb (vqIndex emb v)) ≤ sqDist v (emb k) := by
  unfold vqIndex
  cases h : (List.finRange (K + 1)).argmin (fun j => sqDist v (emb j)) with
  | none =>
      have := finRange_argmin_isSome (fun j => sqDist v (emb j))
      rw [h] at this
      simp at this
  | some m =>
      simp only [Option.getD_some]
      exact List.le_of_mem_argmin (f := fun j => sqDist v (emb j))
        (List.mem_finRange k) (Option.mem_def.mpr h)

/-- Scatter-add over a fintype of locations is the adjoint of gathering: the
generic inner-product identity behind the index_select backward rule. -/
theorem scatter_gather_adjoint {ι β : Type*} [Fintype ι] [Fintype β]
    [DecidableEq β] (e : ι → β) (f : ι → ℚ) (w : β → ι → ℚ) :
    ∑ k, ∑ i, (if e i = k then f i else 0) * w k i =
      ∑ i, f i * w (e i) i := by
  rw [Finset.sum_comm]
  refine Finset.sum_congr rfl fun i _ => ?_
  simp only [ite_mul, zero_mul]
  simp [Finset.sum_ite_eq]

/-- The scatter-add vjp of index_select is the adjoint of the embedding
lookup at fixed indices: gradient pairing on codebook rows equals gradient
pairing on the gathered tensor. -/
theorem index_select_adjoint {B D H W K : ℕ}
    (idx : Fin B → Fin H → Fin W → Fin (K + 1)) (g : Tensor4 B D H W)
    (w2 : Fin (K + 1) → Fin D → ℚ) :
    innerKD (index_select_vjp_weight idx g) w2 =
      innerT4 g (embeddingLookup w2 idx) := by
  unfold innerKD innerT4 index_select_vjp_weight embeddingLookup permute0312
    permute0231
  simp only [Finset.sum_mul]
  rw [Finset.sum_comm]
  conv_rhs => rw [Finset.sum_comm]
  refine Finset.sum_congr rfl fun d _ => ?_
  rw [Finset.sum_comm]
  refine Finset.sum_congr rfl fun b _ => ?_
  rw [Finset.sum_comm]
  refine Finset.sum_congr rfl fun h _ => ?_
  rw [Finset.sum_comm]
  refine Finset.sum_congr rfl fun w _ => ?_
  simp only [ite_mul, zero_mul]
  simp [Finset.sum_ite_eq]

/-- C1: for every continuous latent tensor z_e_x and every codebook state,
the first output of VQEmbedding.straight_through (vq_st against the detached
weight) is numerically identical, as a forward value, to lookup-mode
quantization (VQEmbedding.forward via vq followed by embedding lookup); its
backward pass with respect to z_e_x passes the incoming gradient through
exactly; and the second output is the lookup through the non-detached
weight, whose backward pass to the codebook is the scatter-add adjoint of
that lookup (the codebook's own gradient path). -/
theorem claim_C1_straight_through_matches_lookup (B D H W K : ℕ)
    (weight : Fin (K + 1) → Fin D → ℚ) (z_e_x : Tensor4 B D H W) :
    (VQEmbedding.straight_through weight z_e_x).1 =
      embeddingLookup weight (VQEmbedding.forward weight z_e_x) ∧
    (∀ g : Tensor4 B D H W,
      straight_through_vjp_z_e_x weight z_e_x g = g) ∧
    (VQEmbedding.straight_through weight z_e_x).2 =
      embeddingLookup weight (VQEmbedding.forward weight z_e_x) ∧
    (∀ (g : Tensor4 B D H W) (w2 : Fin (K + 1) → Fin D → ℚ),
      innerKD
          (index_select_vjp_weight (VQEmbedding.forward weight z_e_x) g)
          w2 =
        innerT4 g (embeddingLookup w2 (VQEmbedding.forward weight z_e_x))) :=
  ⟨rfl, fun _ => rfl, rfl,
    fun g w2 => index_select_adjoint (VQEmbedding.forward weight z_e_x) g w2⟩

/-- C8: lookup-mode vector quantization assigns each spatial-location vector
the index of the codebook entry at minimum squared Euclidean distance; in
particular, for the codebook [[-1, -1], [1, 1]], the input vector
[0.9, 0.9] quantizes to index 1. -/
theorem claim_C8_vq_assigns_nearest :
    (∀ (B D H W K : ℕ) (weight : Fin (K + 1) → Fin D → ℚ)
      (z_e_x : Tensor4 B D H W) (b : Fin B) (h : Fin H) (w : Fin W)
      (k : Fin (K + 1)),
      sqDist (permute0231 z_e_x b h w)
          (weight (VQEmbedding.forward weight z_e_x b h w)) ≤
        sqDist (permute0231 z_e_x b h w) (weight k)) ∧
    VQEmbedding.forward embScenario zScenario 0 0 0 = 1 := by
  constructor
  · intro B D H W K weight z_e_x b h w k
    exact vqIndex_min weight (permute0231 z_e_x b h w) k
  · have hmin := vqIndex_min embScenario (permute0231 zScenario 0 0 0) 1
    have htwo : ∀ j : Fin 2, j = 0 ∨ j = 1 := by decide
    rcases htwo (VQEmbedding.forward embScenario zScenario 0 0 0) with h | h
    · exfalso
      rw [VQEmbedding.forward, vq] at h
      rw [h] at hmin
      simp [sqDist, Fin.sum_univ_two, embScenario, zScenario,
        permute0231] at hmin
      norm_num at hmin
    · exact h

theorem sqDist_nonneg {D : ℕ} (v w : Fin D → ℚ) : 0 ≤ sqDist v w :=
  Finset.sum_nonneg fun _ _ => sq_nonneg _

theorem sqDist_eq_zero_iff {D : ℕ} (v w : Fin D → ℚ) :
    sqDist v w = 0 ↔ v = w := by
  unfold sqDist
  rw [Finset.sum_eq_zero_iff_of_nonneg fun i _ => sq_nonneg (v i - w i)]
  constructor
  · intro hz
    funext i
    have := hz i (Finset.mem_univ i)
    have := sq_eq_zero_iff.mp this
    linarith [sub_eq_zero.mp this]
  · intro hvw
    subst hvw
    simp

theorem selectNearest_length {N : ℕ} (d : Fin N → ℚ) :
    ∀ (k : ℕ) (rem : List (Fin N)),
      (selectNearest d k rem).length = min k rem.length
  | 0, rem => by simp [selectNearest]
  | k + 1, rem => by
    rw [selectNearest]
    cases h : rem.argmin d with
    | none =>
      simp [List.argmin_eq_none.mp h]
    | some m =>
      have hm : m ∈ rem := List.argmin_mem (Option.mem_def.mpr h)
      have hl : (rem.erase m).length = rem.length - 1 :=
        List.length_erase_of_mem hm
      have hpos : 1 ≤ rem.length := List.length_pos.mpr
        (List.ne_nil_of_mem hm)
      simp only [List.length_cons, selectNearest_length d k (rem.erase m), hl]
      omega

theorem selectNearest_head_min {N : ℕ} (d : Fin N → ℚ) (k : ℕ)
    (rem : List (Fin N)) (m : Fin N)
    (h : (selectNearest d k rem).head? = some m) :
    ∀ a ∈ rem, d m ≤ d a := by
  cases k with
  | zero => simp [selectNearest] at h
  | succ k =>
    rw [selectNearest] at h
    cases harg : rem.argmin d with
    | none => rw [harg] at h; simp at h
    | some m0 =>
      rw [harg] at h
      simp only [List.head?_cons, Option.some.injEq] at h
      subst h
      exact fun a ha => List.le_of_mem_argmin ha (Option.mem_def.mpr harg)

theorem mem_selectNearest_of_length_le {N : ℕ} (d : Fin N → ℚ) :
    ∀ (k : ℕ) (rem : List (Fin N)), rem.length ≤ k →
      ∀ i ∈ rem, i ∈ selectNearest d k rem
  | 0, rem => by
    intro hlen i hi
    rw [List.length_eq_zero.mp (Nat.le_zero.mp hlen)] at hi
    simp at hi
  | k + 1, rem => by
    intro hlen i hi
    rw [selectNearest]
    cases harg : rem.argmin d with
    | none =>
      rw [List.argmin_eq_none.mp harg] at hi
      simp at hi
    | some m =>
      rcases eq_or_ne i m with him | him
      · exact him ▸ List.mem_cons_self _ _
      · have hm : m ∈ rem := List.argmin_mem (Option.mem_def.mpr harg)
        have hi' : i ∈ rem.erase m := (List.mem_erase_of_ne him).mpr hi
        have hl : (rem.erase m).length ≤ k := by
          rw [List.length_erase_of_mem hm]
          omega
        exact List.mem_cons_of_mem _
          (mem_selectNearest_of_length_le d k (rem.erase m) hl i hi')

/-- C2: a KNN prior query over a code table of N rows with k less than or
equal to N returns exactly k neighbor indices per query code; with k = N
every table entry is returned, so nothing is excluded from candidacy; the
first returned neighbor attains the minimum (or tied-minimum) Euclidean
distance among all N entries; and a query equal to some table row retrieves
a row holding exactly that code. -/
theorem claim_C2_knn_returns_k_nearest (N D bs k : ℕ)
    (codes : Fin N → Fin D → ℚ) (queries : Fin bs → Fin D → ℚ)
    (hk : k ≤ N) (q : Fin bs) :
    ((kneighbors codes k (queries q)).length = k) ∧
    (∀ i : Fin N, i ∈ kneighbors codes N (queries q)) ∧
    (∀ m : Fin N, (kneighbors codes k (queries q)).head? = some m →
      ∀ j : Fin N,
        sqDist (queries q) (codes m) ≤ sqDist (queries q) (codes j)) ∧
    (∀ m i : Fin N, codes i = queries q →
      (kneighbors codes k (queries q)).head? = some m →
      codes m = queries q) := by
  refine ⟨?_, ?_, ?_, ?_⟩
  · rw [kneighbors, selectNearest_length]
    simp [List.length_finRange]
    omega
  · intro i
    exact mem_selectNearest_of_length_le _ N (List.finRange N)
      (by rw [List.length_finRange]) i (List.mem_finRange i)
  · intro m hm j
    exact selectNearest_head_min _ k (List.finRange N) m hm j
      (List.mem_finRange j)
  · intro m i hi hm
    have hmin : sqDist (queries q) (codes m) ≤ sqDist (queries q) (codes i) :=
      selectNearest_head_min _ k (List.finRange N) m hm i
        (List.mem_finRange i)
    rw [hi] at hmin
    have hz : sqDist (queries q) (queries q) = 0 :=
      (sqDist_eq_zero_iff _ _).mpr rfl
    rw [hz] at hmin
    have h0 : sqDist (queries q) (codes m) = 0 :=
      le_antisymm hmin (sqDist_nonneg _ _)
    exact ((sqDist_eq_zero_iff _ _).mp h0).symm

/-- Witness for C2 at the spec scenario: table
[[0, 0], [10, 10], [1, 1], [-5, -5]], k = 2, query [0.5, 0.5]. -/
theorem claim_C2_knn_returns_k_nearest_witness :
    (2 ≤ 4) ∧
    (((kneighbors codesScenario 2 queryScenario).length = 2) ∧
    (∀ i : Fin 4, i ∈ kneighbors codesScenario 4 queryScenario) ∧
    (∀ m : Fin 4,
      (kneighbors codesScenario 2 queryScenario).head? = some m →
      ∀ j : Fin 4, sqDist queryScenario (codesScenario m) ≤
        sqDist queryScenario (codesScenario j)) ∧
    (∀ m i : Fin 4, codesScenario i = queryScenario →
      (kneighbors codesScenario 2 queryScenario).head? = some m →
      codesScenario m = queryScenario)) :=
  ⟨by decide,
    claim_C2_knn_returns_k_nearest 4 2 1 2 codesScenario
      (fun _ => queryScenario) (by decide) 0⟩

theorem npSetRows_foldl_frame {N D m : ℕ} (bidx : Fin m → Fin N)
    (vals : Fin m → Fin D → ℚ) :
    ∀ (l : List (Fin m)) (acc : Fin N → Fin D → ℚ) (i : Fin N),
      (∀ j ∈ l, bidx j ≠ i) →
      l.foldl (fun acc j => setRow acc (bidx j) (vals j)) acc i = acc i
  | [], _, _ => fun _ => rfl
  | j :: l, acc, i => by
    intro hni
    rw [List.foldl_cons]
    rw [npSetRows_foldl_frame bidx vals l _ i
      (fun j2 hj2 => hni j2 (List.mem_cons_of_mem _ hj2))]
    have hji : bidx j ≠ i := hni j (List.mem_cons_self _ _)
    simp [setRow, Ne.symm hji]

theorem npSetRows_foldl_update {N D m : ℕ} (bidx : Fin m → Fin N)
    (vals : Fin m → Fin D → ℚ) :
    ∀ (l : List (Fin m)) (acc : Fin N → Fin D → ℚ) (j0 : Fin m),
      l.Nodup → j0 ∈ l → (∀ j2 ∈ l, bidx j2 = bidx j0 → j2 = j0) →
      l.foldl (fun acc j => setRow acc (bidx j) (vals j)) acc (bidx j0) =
        vals j0
  | [], _, j0 => by
    intro _ h _
    simp at h
  | j :: l, acc, j0 => by
    intro hnd hmem hinj
    rw [List.foldl_cons]
    rcases eq_or_ne j j0 with rfl | hne
    · have hfr : ∀ j2 ∈ l, bidx j2 ≠ bidx j := by
        intro j2 hj2 heq
        have hj2j : j2 = j :=
          hinj j2 (List.mem_cons_of_mem _ hj2) heq
        subst hj2j
        exact (List.nodup_cons.mp hnd).1 hj2
      rw [npSetRows_foldl_frame bidx vals l _ (bidx j) hfr]
      simp [setRow]
    · have hmem2 : j0 ∈ l := by
        rcases List.mem_cons.mp hmem with h | h
        · exact absurd h.symm hne
        · exact h
      exact npSetRows_foldl_update bidx vals l _ j0
        (List.nodup_cons.mp hnd).2 hmem2
        (fun j2 hj2 heq => hinj j2 (List.mem_cons_of_mem _ hj2) heq)

/-- C3: a run_acn batch in the train phase covering (distinct) dataset
indices bidx overwrites exactly those rows of the prior's code table with
the batch's new codes and leaves every other row unchanged; in the valid
phase neither one batch nor a whole phase of batches mutates any row. -/
theorem claim_C3_code_table_frame (N D m : ℕ) (codes : Fin N → Fin D → ℚ)
    (bidx : Fin m → Fin N) (vals : Fin m → Fin D → ℚ) :
    (run_acn_code_table .valid codes bidx vals = codes) ∧
    (∀ batches : List ((Fin m → Fin N) × (Fin m → Fin D → ℚ)),
      run_acn_phase_code_table .valid batches codes = codes) ∧
    (∀ i : Fin N, (∀ j : Fin m, bidx j ≠ i) →
      run_acn_code_table .train codes bidx vals i = codes i) ∧
    (Function.Injective bidx →
      ∀ j : Fin m, run_acn_code_table .train codes bidx vals (bidx j) =
        vals j) := by
  refine ⟨rfl, ?_, ?_, ?_⟩
  · intro batches
    induction batches generalizing codes with
    | nil => rfl
    | cons b bs ih => exact ih codes
  · intro i hi
    exact npSetRows_foldl_frame bidx vals (List.finRange m) codes i
      (fun j _ => hi j)
  · intro hinj j
    exact npSetRows_foldl_update bidx vals (List.finRange m) codes j
      (List.nodup_finRange m) (List.mem_finRange j)
      (fun j2 _ heq => hinj heq)

/-- Witness for C3: a batch covering the strict subset {0, 2} of a
4-row synthetic table leaves row 1 unchanged and rewrites row bidx 0. -/
theorem claim_C3_code_table_frame_witness :
    (run_acn_code_table .valid codesC3 bidxC3 valsC3 = codesC3) ∧
    (run_acn_code_table .train codesC3 bidxC3 valsC3 1 = codesC3 1) ∧
    (run_acn_code_table .train codesC3 bidxC3 valsC3 (bidxC3 0) =
      valsC3 0) :=
  ⟨(claim_C3_code_table_frame 4 1 2 codesC3 bidxC3 valsC3).1,
   (claim_C3_code_table_frame 4 1 2 codesC3 bidxC3 valsC3).2.2.1 1
     (by decide),
   (claim_C3_code_table_frame 4 1 2 codesC3 bidxC3 valsC3).2.2.2
     (by decide) 0⟩

/-- C4: in training mode batch_pick_close_neighbor returns, per example,
the neighbor at the per-example randint draw among the k retrieved
neighbors (the draw is uniform over all k positions on numpy's side, and
the result at one example depends only on that example's draw); in
evaluation mode it deterministically returns the neighbor at index 0,
independent of the draws. -/
theorem claim_C4_neighbor_choice (N D bs k : ℕ)
    (codes : Fin (N + 1) → Fin D → ℚ) (queries : Fin bs → Fin D → ℚ)
    (draws draws2 : Fin bs → Fin (k + 1)) (b : Fin bs) :
    (batch_pick_close_neighbor false k codes queries draws =
      batch_pick_close_neighbor false k codes queries draws2) ∧
    (batch_pick_close_neighbor false k codes queries draws b =
      codes ((kneighbors codes (k + 1) (queries b)).getD 0 0)) ∧
    (batch_pick_close_neighbor true k codes queries draws b =
      codes ((kneighbors codes (k + 1) (queries b)).getD (draws b) 0)) ∧
    (batch_pick_close_neighbor true k codes queries draws b =
      batch_pick_close_neighbor true k codes queries
        (fun _ => draws b) b) :=
  ⟨rfl, rfl, rfl, rfl⟩

/-- C5: reparameterize in evaluation mode returns exactly the mean,
independent of the log-variance and of the noise sample, for any shape; in
training mode it returns eps * exp(0.5 * logvar) + mu elementwise. -/
theorem claim_C5_reparameterize_eval_mean (n : ℕ) (expf : ℚ → ℚ)
    (mu logvar logvar2 eps eps2 : Fin n → ℚ) :
    (reparameterize expf false mu logvar eps = mu) ∧
    (reparameterize expf false mu logvar eps =
      reparameterize expf false mu logvar2 eps2) ∧
    (reparameterize expf true mu logvar eps =
      fun i => eps i * expf (1 / 2 * logvar i) + mu i) :=
  ⟨rfl, rfl, rfl⟩

/-- C9: each training script enters train_acn exactly when none of its
alternate post-training action flags is set (tsne / walk for the VQ script,
sample / tsne / pca for the PixelCNN script). -/
theorem claim_C9_flags_mutually_exclusive_with_training :
    ∀ tsne walk sample tsne2 pca : Bool,
      (vq_script_trains tsne walk = true ↔ tsne = false ∧ walk = false) ∧
      (pcnn_script_trains sample tsne2 pca = true ↔
        sample = false ∧ tsne2 = false ∧ pca = false) := by decide

/-- C10: a validation-phase pass over any list of batches never calls
opt.step() or clip_parameters, and the learnable parameters after the pass
equal the parameters before it (only gradient buffers may change). -/
theorem claim_C10_validation_never_steps {P G B : Type}
    (backward : B → P → G → G) (clipf : G → G) (stepf : P → G → P)
    (batches : List B) (st : OptState P G) :
    (run_phase_opt .valid backward clipf stepf batches st).params =
      st.params ∧
    (run_phase_opt .valid backward clipf stepf batches st).stepCalls =
      st.stepCalls ∧
    (run_phase_opt .valid backward clipf stepf batches st).clipCalls =
      st.clipCalls := by
  induction batches generalizing st with
  | nil => exact ⟨rfl, rfl, rfl⟩
  | cons b bs ih =>
    exact ih (run_batch_opt .valid backward clipf stepf st b)

/-- Counterexample to C6 as stated: at a concrete forward pass in training
mode the value run_acn feeds to the KNN prior differs both from the sampled
latent z (first conjunct) and from its VQ-quantized form z_q_x_st (second
conjunct) - the script passes the posterior mean u_q instead. -/
theorem claim_C6_counterexample :
    (run_acn_prior_query encC6 postzC6 weightC6 expfC6 true epsC6 () ≠
      (vq_conv_model_forward encC6 postzC6 weightC6 expfC6 true epsC6
        ()).1) ∧
    (run_acn_prior_query encC6 postzC6 weightC6 expfC6 true epsC6 () 0 ≠
      (vq_conv_model_forward encC6 postzC6 weightC6 expfC6 true epsC6
        ()).2.2.2.2.1 0 0 0 0) := by
  constructor
  · intro h
    have h0 := congrFun h 0
    simp [run_acn_prior_query, vq_conv_model_forward, acn_encode,
      reparameterize, encC6, expfC6, epsC6] at h0
  · intro h
    simp [run_acn_prior_query, vq_conv_model_forward, acn_encode,
      reparameterize, vq_encode, VQEmbedding.straight_through, vq_st,
      detach, permute0312, permute0231, encC6, expfC6, epsC6, weightC6]
      at h

/-- C6 amended: in the training loop's per-batch data flow it is the
posterior mean u_q - not the sampled latent z nor its VQ-quantized form -
that is fed to the KNN prior as the query for predicting (mu_p, s_p), and
the same u_q is the value written into the prior's code table. -/
theorem claim_C6_amended_prior_query_is_posterior_mean {Img : Type}
    {n B D H W K : ℕ} (enc : Img → (Fin n → ℚ) × (Fin n → ℚ))
    (postz : (Fin n → ℚ) → Tensor4 B D H W)
    (weight : Fin (K + 1) → Fin D → ℚ) (expf : ℚ → ℚ) (training : Bool)
    (eps : Fin n → ℚ) (x : Img) :
    (run_acn_prior_query enc postz weight expf training eps x =
      (enc x).1) ∧
    (run_acn_code_update_value enc postz weight expf training eps x =
      (enc x).1) :=
  ⟨rfl, rfl⟩

theorem infoMerge_foldl_frame {V : Type} (dinfo : String → Option V) :
    ∀ (l : List String) (acc : String → Option V) (key : String),
      key ∉ l → l.foldl (infoMergeStep dinfo) acc key = acc key
  | [], _, _ => fun _ => rfl
  | k0 :: l, acc, key => by
    intro hk
    rw [List.foldl_cons]
    rw [infoMerge_foldl_frame dinfo l _ key
      (fun h => hk (List.mem_cons_of_mem _ h))]
    have hne : key ≠ k0 := fun h => hk (h ▸ List.mem_cons_self _ _)
    unfold infoMergeStep
    split
    · rfl
    · simp [hne]

theorem infoMerge_foldl_mem {V : Type} (dinfo : String → Option V) :
    ∀ (l : List String) (acc : String → Option V) (key : String),
      l.Nodup → key ∈ l →
      l.foldl (infoMergeStep dinfo) acc key =
        if key ∈ preserve_args ∧ (acc key).isSome then acc key
        else dinfo key
  | [], _, key => by
    intro _ h
    simp at h
  | k0 :: l, acc, key => by
    intro hnd hmem
    rw [List.foldl_cons]
    rcases eq_or_ne key k0 with rfl | hne
    · rw [infoMerge_foldl_frame dinfo l _ key (List.nodup_cons.mp hnd).1]
      by_cases hc : key ∈ preserve_args ∧ (acc key).isSome
      · rw [if_pos hc]
        unfold infoMergeStep
        rw [if_pos hc]
      · rw [if_neg hc]
        unfold infoMergeStep
        rw [if_neg hc]
        simp
    · have hmem2 : key ∈ l := (List.mem_cons.mp hmem).resolve_left hne
      have hstep : infoMergeStep dinfo acc k0 key = acc key := by
        unfold infoMergeStep
        split
        · rfl
        · simp [hne]
      rw [infoMerge_foldl_mem dinfo l _ key (List.nodup_cons.mp hnd).2
        hmem2, hstep]

/-- C7: for every checkpoint metadata key, the merge loop keeps the
current command-line-derived value exactly when the key is both in the
preserve whitelist and present in the current configuration, and otherwise
silently takes the checkpoint value; keys absent from the checkpoint are
untouched. -/
theorem claim_C7_checkpoint_merge_policy {V : Type} (dkeys : List String)
    (dinfo info : String → Option V) (hnd : dkeys.Nodup) :
    (∀ key ∈ dkeys,
      infoMerge dkeys dinfo info key =
        if key ∈ preserve_args ∧ (info key).isSome then info key
        else dinfo key) ∧
    (∀ key, key ∉ dkeys → infoMerge dkeys dinfo info key = info key) :=
  ⟨fun key hkey => infoMerge_foldl_mem dinfo dkeys info key hnd hkey,
   fun key hkey => infoMerge_foldl_frame dinfo dkeys info key hkey⟩

/-- Witness for C7: with checkpoint keys [device, learning_rate] and a
current configuration defining only device, the merge follows the
whitelist on device, takes the checkpoint's learning_rate, and leaves the
absent key epoch_cnt alone. -/
theorem claim_C7_checkpoint_merge_policy_witness :
    (infoMerge dkeysC7 dinfoC7 infoC7 "device" =
      if "device" ∈ preserve_args ∧ (infoC7 "device").isSome then
        infoC7 "device"
      else dinfoC7 "device") ∧
    (infoMerge dkeysC7 dinfoC7 infoC7 "learning_rate" =
      if "learning_rate" ∈ preserve_args ∧
          (infoC7 "learning_rate").isSome then
        infoC7 "learning_rate"
      else dinfoC7 "learning_rate") ∧
    (infoMerge dkeysC7 dinfoC7 infoC7 "epoch_cnt" = infoC7 "epoch_cnt") :=
  ⟨(claim_C7_checkpoint_merge_policy dkeysC7 dinfoC7 infoC7
      (by decide)).1 "device" (by decide),
   (claim_C7_checkpoint_merge_policy dkeysC7 dinfoC7 infoC7
      (by decide)).1 "learning_rate" (by decide),
   (claim_C7_checkpoint_merge_policy dkeysC7 dinfoC7 infoC7
      (by decide)).2 "epoch_cnt" (by decide)⟩

end ACN
